import Mathlib

/-!
Verification of the TOC-recovery pipeline in `src/add_bookmarks_to_pdf.py`.

Python strings are embedded as `List Char` (`Str`).  Pages of a document are
embedded as lists of lines (`List Str`), the result of
`page.extract_text().splitlines()`.  Fallible Python code (which may raise
`ValueError` / `IndexError`) is embedded in `Except String`.

The helper module `src.utils` is not part of the repository snapshot; its
functions (`check_numeric`, `letter_to_number`, `strip_nonnumeric`) are
modelled from the specification, as marked in their doc comments.
-/

namespace Toc

abbrev Str := List Char

/-- `s.lower()` on an ASCII Python string. -/
def lowerStr (s : Str) : Str := s.map Char.toLower

/-- `pat` occurs at the start of `s` (used for Python `startswith`). -/
def leadsWith : Str → Str → Bool
  | [], _ => true
  | _ :: _, [] => false
  | a :: as, b :: bs => a == b && leadsWith as bs

/-- Python substring containment `pat in s`. -/
def hasSub : Str → Str → Bool
  | pat, [] => pat.isEmpty
  | pat, c :: rest => leadsWith pat (c :: rest) || hasSub pat rest

/-- Python `line.partition(" ")`, keeping only the pieces (before, after).
When no space occurs, Python returns `(line, "", "")`, i.e. `(line, [])` here. -/
def splitFirstSpace : Str → Str × Str
  | [] => ([], [])
  | c :: rest =>
    if c = ' ' then ([], rest)
    else
      let (a, b) := splitFirstSpace rest
      (c :: a, b)

/-- Python `line.rpartition(" ")`, keeping only the pieces (before, after).
When no space occurs, Python returns `("", "", line)`, i.e. `([], line)` here. -/
def splitLastSpace (l : Str) : Str × Str :=
  let (ra, rb) := splitFirstSpace l.reverse
  (rb.reverse, ra.reverse)

/-- Python `s.split(".")`. -/
def splitOnDot : Str → List Str
  | [] => [[]]
  | c :: rest =>
    if c = '.' then [] :: splitOnDot rest
    else
      match splitOnDot rest with
      | [] => [[c]]
      | h :: t => (c :: h) :: t

/-- A non-empty all-ASCII-digit string (the strings Python `int` accepts here). -/
def isDigits (s : Str) : Bool := !s.isEmpty && s.all Char.isDigit

/-- Decimal value of an all-digit string. -/
def digitsVal (s : Str) : Nat :=
  Nat.ofDigits 10 ((s.map fun c => c.toNat - 48).reverse)

/-- Python `int(token)` on the space-free tokens this program produces:
an optional sign followed by a non-empty digit string; anything else raises
`ValueError` (here: `none`). -/
def toIntStrict (s : Str) : Option Int :=
  match s with
  | [] => none
  | c :: rest =>
    if c = '-' then if isDigits rest then some (-(digitsVal rest : Int)) else none
    else if c = '+' then if isDigits rest then some ((digitsVal rest : Int)) else none
    else if isDigits (c :: rest) then some ((digitsVal (c :: rest) : Int)) else none

/-- A digit as a character (used to embed Python's decimal rendering of ints). -/
def digitChar (d : Nat) : Char :=
  ['0', '1', '2', '3', '4', '5', '6', '7', '8', '9'].getD d '9'

/-- Decimal digit characters of `n`, most significant first, by structural
recursion on a fuel argument so that it evaluates inside the kernel. -/
def natStrAux : Nat → Nat → Str
  | 0, _ => []
  | fuel + 1, n => if n = 0 then [] else natStrAux fuel (n / 10) ++ [digitChar (n % 10)]

/-- Python `str(n)` for a natural number. -/
def natStr (n : Nat) : Str :=
  if n = 0 then ['0'] else natStrAux n n

/-- Python `str(i)` for an integer. -/
def intStr (i : Int) : Str :=
  if i < 0 then '-' :: natStr i.natAbs else natStr i.toNat

/-- Modelled from the spec: `src.utils.strip_nonnumeric` is not under `src/`.
The spec says it strips leading non-numeric characters and/or trailing
non-numeric characters; `Entry.__init__` calls it with both flags `True`,
`clean_buffer` calls it with the defaults, which the spec describes as
stripping trailing non-numeric characters only. -/
def strip_nonnumeric (s : Str) (lead trail : Bool) : Str :=
  let s := if lead then s.dropWhile (fun c => !c.isDigit) else s
  if trail then (s.reverse.dropWhile (fun c => !c.isDigit)).reverse else s

/-- Modelled from the spec: `src.utils.check_numeric` is not under `src/`.
The spec says it returns true iff the token, after optional appendix-prefix
handling, denotes a number: a plain integer, or a dotted/lettered composite
acceptable to the SectionNumber model. -/
def check_numeric (t : Str) : Bool :=
  if leadsWith ('a' :: 'p' :: 'p' :: 'e' :: 'n' :: 'd' :: 'i' :: 'x' :: [' ']) (lowerStr t) then
    (splitOnDot (t.drop 9)).all fun c => isDigits c || (c.length == 1 && c.all Char.isAlpha)
  else
    (splitOnDot t).all isDigits

/-- Modelled from the spec: `src.utils.letter_to_number` is not under `src/`.
The spec says it converts a single alphabetic token to its 1-based ordinal
position in the alphabet. -/
def letter_to_number (s : Str) : Except String Int :=
  match s with
  | [c] =>
    if c.isAlpha then Except.ok ((c.toLower.toNat - 96 : Nat) : Int)
    else Except.error "letter_to_number: not a letter"
  | _ => Except.error "letter_to_number: not a single letter"

instance {ε α : Type _} [DecidableEq ε] [DecidableEq α] :
    DecidableEq (Except ε α) := fun a b =>
  match a, b with
  | .error e, .error f =>
    if h : e = f then .isTrue (congrArg Except.error h)
    else .isFalse fun hh => h (Except.error.inj hh)
  | .ok x, .ok y =>
    if h : x = y then .isTrue (congrArg Except.ok h)
    else .isFalse fun hh => h (Except.ok.inj hh)
  | .error _, .ok _ => .isFalse Except.noConfusion
  | .ok _, .error _ => .isFalse Except.noConfusion

/-- Dotted join, the inverse shape of `splitOnDot` (used to describe section
tokens such as `"5.2.2"`). -/
def joinDots : List Str → Str
  | [] => []
  | [s] => s
  | s :: rest => s ++ '.' :: joinDots rest

/-- Python `int(token)` raising `ValueError` on failure. -/
def intComp (s : Str) : Except String Int :=
  match toIntStrict s with
  | some v => Except.ok v
  | none => Except.error "ValueError: invalid literal for int"

/-- One resolved TOC line (`class Entry`).  The section-number fields are
Python ints; `page` may become negative after offset calibration. -/
structure Entry where
  title : Str
  page : Int
  appendix : Bool
  chapter : Int
  sectionNum : Int
  subsection : Int
  deriving Repr, DecidableEq

/-- `Entry.__init__(self, section, title, page)`: parse the page token with
`int`, then parse the raw section string into chapter/section/subsection and
the appendix flag.  The component list is padded with `0` at the end
(`while len(section) < 3: section.append(0)`) and indexed `[0]`, `[1]`, `[2]`.
Failures of `int` (Python `ValueError`) become `Except.error`. -/
def mkEntry (sec title page : Str) : Except String Entry := do
  let p ← intComp page
  if leadsWith ('a' :: 'p' :: 'p' :: 'e' :: 'n' :: 'd' :: 'i' :: 'x' :: [' ']) (lowerStr sec) then
    let comps := splitOnDot (sec.drop 9)
    let nums ← comps.mapM fun s =>
      if check_numeric s then intComp s else letter_to_number s
    let padded := nums ++ List.replicate (3 - nums.length) 0
    Except.ok { title := title, page := p, appendix := true,
                chapter := padded.getD 0 0, sectionNum := padded.getD 1 0,
                subsection := padded.getD 2 0 }
  else
    let cleaned := strip_nonnumeric sec true true
    let nums ← (splitOnDot cleaned).mapM intComp
    let padded := nums ++ List.replicate (3 - nums.length) 0
    Except.ok { title := title, page := p, appendix := false,
                chapter := padded.getD 0 0, sectionNum := padded.getD 1 0,
                subsection := padded.getD 2 0 }

/-- `Entry.__str__`. -/
def entryStr (e : Entry) : Str :=
  if e.appendix then
    ('[' :: 'U' :: 'N' :: 'H' :: 'A' :: 'N' :: 'D' :: 'L' :: 'E' :: 'D' :: ' ' ::
     'A' :: 'P' :: 'P' :: 'E' :: 'N' :: 'D' :: 'I' :: 'X' :: [']'])
  else if e.subsection != 0 then
    intStr e.chapter ++ '.' :: intStr e.sectionNum ++ '.' :: intStr e.subsection ++
      ' ' :: '-' :: ' ' :: e.title ++
      (' ' :: '(' :: 'p' :: 'a' :: 'g' :: 'e' :: [' ']) ++ intStr e.page ++ [')']
  else if e.sectionNum != 0 then
    intStr e.chapter ++ '.' :: intStr e.sectionNum ++
      ' ' :: '-' :: ' ' :: e.title ++
      (' ' :: '(' :: 'p' :: 'a' :: 'g' :: 'e' :: [' ']) ++ intStr e.page ++ [')']
  else
    ('C' :: 'h' :: '.' :: [' ']) ++ intStr e.chapter ++
      ' ' :: '-' :: ' ' :: e.title ++
      (' ' :: '(' :: 'p' :: 'a' :: 'g' :: 'e' :: [' ']) ++ intStr e.page ++ [')']

/-- `split_line(line)`: split the section and page tokens off a TOC line. -/
def split_line (line : Str) : Str × Str × Str :=
  let (sec, title) := splitFirstSpace line
  let (sec, title) :=
    if lowerStr sec = ('a' :: 'p' :: 'p' :: 'e' :: 'n' :: 'd' :: 'i' :: ['x']) then
      let (s2, t2) := splitFirstSpace title
      (('A' :: 'p' :: 'p' :: 'e' :: 'n' :: 'd' :: 'i' :: 'x' :: [' ']) ++ s2, t2)
    else (sec, title)
  let (title, page) := splitLastSpace title
  (sec, title, page)

/-- `clean_buffer(buffer)`: rebuild the buffered triple as one blob, strip
trailing non-numeric characters, and re-split. -/
def clean_buffer (b : Str × Str × Str) : Str × Str × Str :=
  split_line (strip_nonnumeric (b.1 ++ ' ' :: b.2.1 ++ ' ' :: b.2.2) false true)

/-- The stitcher's transient buffer: empty (`[]` in Python) or a
(section, title, page) triple. -/
abbrev Buffer := Option (Str × Str × Str)

/-- One iteration of the `parse_toc` loop: the `match` on
`bool(len(buffer)), check_numeric(section), check_numeric(page)`. -/
def stitch_step (st : List Entry × Buffer) (line : Str) :
    Except String (List Entry × Buffer) :=
  let (contents, buffer) := st
  let (sec, title, page) := split_line line
  match buffer, check_numeric sec, check_numeric page with
  | none, true, true => do
    let e ← mkEntry sec title page
    Except.ok (contents ++ [e], none)
  | none, true, false =>
    Except.ok (contents, some (sec, title, page))
  | some (bs, bt, bp), false, false =>
    Except.ok (contents, some (bs, bt ++ ' ' :: bp ++ ' ' :: sec ++ ' ' :: title, page))
  | some (bs, bt, bp), false, true => do
    let e ← mkEntry bs (bt ++ ' ' :: bp ++ ' ' :: sec ++ ' ' :: title) page
    Except.ok (contents ++ [e], none)
  | some b, true, true => do
    let (cs, ct, cp) := clean_buffer b
    let e1 ← mkEntry cs ct cp
    let e2 ← mkEntry sec title page
    Except.ok (contents ++ [e1, e2], none)
  | some b, true, false => do
    let (cs, ct, cp) := clean_buffer b
    let e1 ← mkEntry cs ct cp
    Except.ok (contents ++ [e1], some (sec, title, page))
  | none, false, _ =>
    Except.ok (contents, none)

/-- The whole stitching loop of `parse_toc`, returning the entry list and the
final buffer state. -/
def stitch (toc_text : List Str) : Except String (List Entry × Buffer) :=
  toc_text.foldlM stitch_step ([], none)

/-- Regex `^.*\D\d` of `identify_toc`: the line contains a non-digit character
immediately followed by a digit. -/
def lineMatches : Str → Bool
  | [] => false
  | [_] => false
  | a :: b :: rest => (!a.isDigit && b.isDigit) || lineMatches (b :: rest)

/-- What `identify_toc` does with one page: append its lines, skip it, or
stop scanning (`break`).  `4 * m > 3 * n` is the exact form of the Python
float comparison `len(cond_lines) > 0.75 * len(all_lines)`. -/
inductive TocAction | append | skip | stop
  deriving Repr, DecidableEq

def toc_action (found : Bool) (p : List Str) : TocAction :=
  if 4 * (p.filter lineMatches).length > 3 * p.length then
    if !found && p.length < 10 then .skip else .append
  else if found then .stop else .skip

def identify_go : List (List Str) → List Str → Bool → List Str
  | [], acc, _ => acc
  | p :: rest, acc, found =>
    match toc_action found p with
    | .append => identify_go rest (acc ++ p) true
    | .skip => identify_go rest acc found
    | .stop => acc

/-- `identify_toc(document)`: scan the pages (each a list of extracted lines)
for the contiguous run of TOC pages and return their concatenated lines. -/
def identify_toc (pages : List (List Str)) : List Str :=
  identify_go pages [] false

/-- Python `" ".join(lines)`. -/
def joinSpace : List Str → Str
  | [] => []
  | [s] => s
  | s :: rest => s ++ ' ' :: joinSpace rest

def offset_go (pages : List (List Str)) (i : Nat) (contents : List Entry) :
    Except String (Option (List Entry)) :=
  match pages with
  | [] => Except.ok none
  | page :: rest =>
    let text := joinSpace (page.take 3)
    match contents with
    | [] => Except.error "IndexError: list index out of range"
    | e0 :: _ =>
      if hasSub e0.title text then
        Except.ok (some (contents.map fun e => { e with page := e.page + (i : Int) - 1 }))
      else offset_go rest (i + 1) contents

/-- `offset_first_page(document, contents)`: find the page whose first three
lines contain the first entry's title and add `i - 1` to every page number.
Python returns `None` when no page matches (`Except.ok none` here) and raises
`IndexError` when `contents` is empty and a page exists. -/
def offset_first_page (pages : List (List Str)) (contents : List Entry) :
    Except String (Option (List Entry)) :=
  offset_go pages 0 contents

/-- `parse_toc(document, toc_text)`: stitch the TOC lines into entries, then
calibrate the page offsets.  The final buffer is dropped. -/
def parse_toc (pages : List (List Str)) (toc_text : List Str) :
    Except String (Option (List Entry)) := do
  let (contents, _) ← stitch toc_text
  offset_first_page pages contents

/-- The `chapter_level` list comprehension of `add_bookmarks_to_pdf`. -/
def chapter_level (contents : List Entry) : List Entry :=
  contents.filter fun e => !(e.sectionNum != 0 || e.subsection != 0 || e.appendix)

/-- The inner comprehension of `section_level` for one chapter entry. -/
def section_group (contents : List Entry) (ch : Entry) : List Entry :=
  contents.filter fun e =>
    e.chapter == ch.chapter && e.sectionNum != 0 && !(e.subsection != 0 || e.appendix)

/-- The `section_level` nested list of `add_bookmarks_to_pdf`. -/
def section_level (contents : List Entry) : List (List Entry) :=
  (chapter_level contents).map (section_group contents)

/-- The inner comprehension of `subsection_level` for one chapter and section. -/
def subsection_group (contents : List Entry) (ch sec : Entry) : List Entry :=
  contents.filter fun e =>
    e.chapter == ch.chapter && e.sectionNum == sec.sectionNum && e.subsection != 0 && !e.appendix

/-- The `subsection_level` nested list of `add_bookmarks_to_pdf` (including the
`if section.chapter == chapter.chapter` guard of the source). -/
def subsection_level (contents : List Entry) : List (List (List Entry)) :=
  (chapter_level contents).map fun ch =>
    ((section_group contents ch).filter fun sec => sec.chapter == ch.chapter).map
      (subsection_group contents ch)

/-- All groups produced by the hierarchy builder, as a flat list of groups:
the chapter-level group, then every per-chapter section group, then every
per-(chapter, section) subsection group. -/
def allGroups (contents : List Entry) : List (List Entry) :=
  chapter_level contents :: section_level contents ++ (subsection_level contents).flatten

/-! ## Character and string lemmas -/

lemma toLower_digit {c : Char} (h : c.isDigit = true) : c.toLower = c := by
  simp [Char.isDigit] at h
  simp [Char.toLower]
  intro h1 _
  exact absurd (le_trans h1 h.2) (by decide)

lemma a_beq_toLower_digit {c : Char} (h : c.isDigit = true) :
    ('a' == c.toLower) = false := by
  rw [toLower_digit h]
  simp [Char.isDigit] at h
  simp only [beq_eq_false_iff_ne, ne_eq]
  intro hc
  rw [← hc] at h
  exact absurd h.2 (by decide)

lemma digit_ne_dot {c : Char} (h : c.isDigit = true) : c ≠ '.' := by
  intro hc; subst hc; simp [Char.isDigit] at h

lemma digit_ne_space {c : Char} (h : c.isDigit = true) : c ≠ ' ' := by
  intro hc; subst hc; simp [Char.isDigit] at h

lemma isDigits_ne_nil {s : Str} (h : isDigits s = true) : s ≠ [] := by
  cases s with
  | nil => simp [isDigits] at h
  | cons a t => simp

lemma isDigits_mem {s : Str} (h : isDigits s = true) {c : Char} (hc : c ∈ s) :
    c.isDigit = true := by
  simp [isDigits, List.all_eq_true] at h
  exact h.2 c hc

lemma isDigits_cons {s : Str} (h : isDigits s = true) :
    ∃ c t, s = c :: t ∧ c.isDigit = true := by
  cases s with
  | nil => simp [isDigits] at h
  | cons a t => exact ⟨a, t, rfl, isDigits_mem h (by simp)⟩

lemma isDigits_reverse_cons {s : Str} (h : isDigits s = true) :
    ∃ c t, s.reverse = c :: t ∧ c.isDigit = true := by
  cases hr : s.reverse with
  | nil => exact absurd (by simpa using congrArg List.reverse hr) (isDigits_ne_nil h)
  | cons a t =>
    refine ⟨a, t, rfl, isDigits_mem h ?_⟩
    rw [← List.mem_reverse, hr]; simp

lemma no_space_of_isDigits {s : Str} (h : isDigits s = true) : ' ' ∉ s :=
  fun hc => digit_ne_space (isDigits_mem h hc) rfl

lemma no_dot_of_isDigits {s : Str} (h : isDigits s = true) : '.' ∉ s :=
  fun hc => digit_ne_dot (isDigits_mem h hc) rfl

/-! ## Splitting lemmas -/

lemma splitFirstSpace_append {a b : Str} (h : ' ' ∉ a) :
    splitFirstSpace (a ++ ' ' :: b) = (a, b) := by
  induction a with
  | nil => simp [splitFirstSpace]
  | cons c t ih =>
    have hc : ¬ c = ' ' := by intro e; exact h (by simp [e])
    have ht : ' ' ∉ t := fun e => h (by simp [e])
    simp [splitFirstSpace, hc, ih ht]

lemma splitFirstSpace_no_space {l : Str} (h : ' ' ∉ l) :
    splitFirstSpace l = (l, []) := by
  induction l with
  | nil => simp [splitFirstSpace]
  | cons c t ih =>
    have hc : ¬ c = ' ' := by intro e; exact h (by simp [e])
    have ht : ' ' ∉ t := fun e => h (by simp [e])
    simp [splitFirstSpace, hc, ih ht]

lemma splitLastSpace_append {a b : Str} (h : ' ' ∉ b) :
    splitLastSpace (a ++ ' ' :: b) = (a, b) := by
  have hrev : (a ++ ' ' :: b).reverse = b.reverse ++ ' ' :: a.reverse := by
    simp [List.reverse_append]
  have hb : ' ' ∉ b.reverse := by simpa using h
  simp [splitLastSpace, hrev, splitFirstSpace_append hb]

lemma splitLastSpace_no_space {l : Str} (h : ' ' ∉ l) :
    splitLastSpace l = ([], l) := by
  have hb : ' ' ∉ l.reverse := by simpa using h
  simp [splitLastSpace, splitFirstSpace_no_space hb]

lemma splitOnDot_no_dot {l : Str} (h : '.' ∉ l) : splitOnDot l = [l] := by
  induction l with
  | nil => simp [splitOnDot]
  | cons c t ih =>
    have hc : ¬ c = '.' := by intro e; exact h (by simp [e])
    have ht : '.' ∉ t := fun e => h (by simp [e])
    simp [splitOnDot, hc, ih ht]

lemma splitOnDot_append {a b : Str} (h : '.' ∉ a) :
    splitOnDot (a ++ '.' :: b) = a :: splitOnDot b := by
  induction a with
  | nil => simp [splitOnDot]
  | cons c t ih =>
    have hc : ¬ c = '.' := by intro e; exact h (by simp [e])
    have ht : '.' ∉ t := fun e => h (by simp [e])
    simp [splitOnDot, hc, ih ht]

/-! ## Decimal rendering round-trip -/

lemma digitChar_isDigit (d : Nat) : (digitChar d).isDigit = true := by
  unfold digitChar
  by_cases h : d < 10
  · interval_cases d <;> decide
  · rw [List.getD_eq_default]
    · decide
    · simpa using Nat.le_of_not_lt h

lemma charVal_digitChar {d : Nat} (h : d < 10) : (digitChar d).toNat - 48 = d := by
  interval_cases d <;> decide

lemma natStrAux_eq_digits (fuel n : Nat) (h : n ≤ fuel) :
    natStrAux fuel n = (Nat.digits 10 n).reverse.map digitChar := by
  induction fuel generalizing n with
  | zero =>
    have hn : n = 0 := Nat.le_zero.mp h
    subst hn
    simp [natStrAux]
  | succ fuel ih =>
    by_cases hn : n = 0
    · subst hn
      simp [natStrAux]
    · have hpos : 0 < n := Nat.pos_of_ne_zero hn
      have hdiv : n / 10 ≤ fuel := by
        have := Nat.div_lt_self hpos (by norm_num : (1 : Nat) < 10)
        omega
      rw [show natStrAux (fuel + 1) n =
          natStrAux fuel (n / 10) ++ [digitChar (n % 10)] by simp [natStrAux, hn]]
      rw [ih (n / 10) hdiv, Nat.digits_def' (by norm_num : (1 : Nat) < 10) hpos]
      simp

lemma natStr_eq_digits (n : Nat) :
    natStr n = if n = 0 then ['0'] else (Nat.digits 10 n).reverse.map digitChar := by
  by_cases h : n = 0
  · simp [natStr, h]
  · simp [natStr, h, natStrAux_eq_digits n n le_rfl]

lemma natStr_isDigits (n : Nat) : isDigits (natStr n) = true := by
  rw [natStr_eq_digits]
  by_cases h : n = 0
  · subst h; decide
  · simp only [h, if_false]
    have hne : Nat.digits 10 n ≠ [] := Nat.digits_ne_nil_iff_ne_zero.mpr h
    have hne2 : (Nat.digits 10 n).reverse.map digitChar ≠ [] := by
      simpa using hne
    simp only [isDigits, Bool.and_eq_true, Bool.not_eq_true', List.all_eq_true]
    constructor
    · cases hm : (Nat.digits 10 n).reverse.map digitChar with
      | nil => exact absurd hm hne2
      | cons a t => simp
    · intro c hc
      simp only [List.mem_map, List.mem_reverse] at hc
      obtain ⟨d, _, rfl⟩ := hc
      exact digitChar_isDigit d

lemma digitsVal_natStr (n : Nat) : digitsVal (natStr n) = n := by
  rw [natStr_eq_digits]
  unfold digitsVal
  by_cases h : n = 0
  · subst h; decide
  · simp only [h, if_false]
    rw [List.map_reverse, List.map_reverse, List.reverse_reverse, List.map_map]
    have heq : (Nat.digits 10 n).map ((fun c : Char => c.toNat - 48) ∘ digitChar) =
        (Nat.digits 10 n).map id := by
      apply List.map_congr_left
      intro d hd
      exact charVal_digitChar (Nat.digits_lt_base (by norm_num) hd)
    rw [heq, List.map_id, Nat.ofDigits_digits]

lemma toIntStrict_digits {s : Str} (h : isDigits s = true) :
    toIntStrict s = some ((digitsVal s : Nat) : Int) := by
  obtain ⟨c, t, rfl, hc⟩ := isDigits_cons h
  have h1 : ¬ c = '-' := by intro e; subst e; simp [Char.isDigit] at hc
  have h2 : ¬ c = '+' := by intro e; subst e; simp [Char.isDigit] at hc
  simp [toIntStrict, h1, h2, h]

lemma toIntStrict_natStr (n : Nat) : toIntStrict (natStr n) = some (n : Int) := by
  rw [toIntStrict_digits (natStr_isDigits n), digitsVal_natStr]

lemma intComp_digits {s : Str} (h : isDigits s = true) :
    intComp s = Except.ok ((digitsVal s : Nat) : Int) := by
  simp [intComp, toIntStrict_digits h]

/-! ## `strip_nonnumeric` lemmas -/

lemma dropWhile_digit_head {c : Char} {t : Str} (hc : c.isDigit = true) :
    (c :: t).dropWhile (fun x => !x.isDigit) = c :: t := by
  simp [List.dropWhile_cons, hc]

lemma strip_nonnumeric_true_true (s : Str) :
    strip_nonnumeric s true true =
      ((s.dropWhile (fun c => !c.isDigit)).reverse.dropWhile
        (fun c => !c.isDigit)).reverse := rfl

lemma strip_nonnumeric_false_true (s : Str) :
    strip_nonnumeric s false true =
      (s.reverse.dropWhile (fun c => !c.isDigit)).reverse := rfl

lemma strip_nonnumeric_id {s : Str}
    (h1 : ∃ c t, s = c :: t ∧ c.isDigit = true)
    (h2 : ∃ c t, s.reverse = c :: t ∧ c.isDigit = true) :
    strip_nonnumeric s true true = s := by
  obtain ⟨c, t, hs, hc⟩ := h1
  obtain ⟨d, u, hr, hd⟩ := h2
  rw [strip_nonnumeric_true_true, hs, dropWhile_digit_head hc, ← hs, hr,
    dropWhile_digit_head hd, ← hr, List.reverse_reverse]

lemma strip_nonnumeric_trail {a junk : Str} (ha : isDigits a = true)
    (hjunk : ∀ c ∈ junk, c.isDigit = false) :
    strip_nonnumeric (a ++ junk) false true = a := by
  rw [strip_nonnumeric_false_true, List.reverse_append]
  have hrev : junk.reverse.dropWhile (fun x => !x.isDigit) = [] := by
    rw [List.dropWhile_eq_nil_iff]
    intro c hc
    simp [hjunk c (List.mem_reverse.mp hc)]
  rw [List.dropWhile_append, hrev]
  simp only [List.isEmpty_nil, if_true]
  obtain ⟨d, u, hr, hd⟩ := isDigits_reverse_cons ha
  rw [hr, dropWhile_digit_head hd, ← hr, List.reverse_reverse]

/-! ## `joinDots` lemmas -/

lemma joinDots_cons (a : Str) (rest : List Str) (h : rest ≠ []) :
    joinDots (a :: rest) = a ++ '.' :: joinDots rest := by
  cases rest with
  | nil => exact absurd rfl h
  | cons b r => rfl

lemma joinDots_head_digit {comps : List Str} (h : ∀ c ∈ comps, isDigits c = true)
    (hne : comps ≠ []) :
    ∃ c t, joinDots comps = c :: t ∧ c.isDigit = true := by
  cases comps with
  | nil => exact absurd rfl hne
  | cons a rest =>
    have ha : isDigits a = true := h a (by simp)
    obtain ⟨c, t, hs, hc⟩ := isDigits_cons ha
    cases rest with
    | nil => exact ⟨c, t, by simpa [joinDots] using hs, hc⟩
    | cons b r =>
      refine ⟨c, t ++ '.' :: joinDots (b :: r), ?_, hc⟩
      rw [joinDots_cons a (b :: r) (by simp), hs]
      simp

lemma joinDots_reverse_head_digit {comps : List Str}
    (h : ∀ c ∈ comps, isDigits c = true) (hne : comps ≠ []) :
    ∃ c t, (joinDots comps).reverse = c :: t ∧ c.isDigit = true := by
  induction comps with
  | nil => exact absurd rfl hne
  | cons a rest ih =>
    cases rest with
    | nil =>
      have ha : isDigits a = true := h a (by simp)
      simpa [joinDots] using isDigits_reverse_cons ha
    | cons b r =>
      obtain ⟨c, t, hr, hc⟩ := ih (fun x hx => h x (by simp [hx])) (by simp)
      refine ⟨c, t ++ '.' :: a.reverse, ?_, hc⟩
      rw [joinDots_cons a (b :: r) (by simp)]
      simp only [List.reverse_append, List.reverse_cons]
      rw [hr]
      simp

lemma splitOnDot_joinDots {comps : List Str} (h : ∀ c ∈ comps, isDigits c = true)
    (hne : comps ≠ []) : splitOnDot (joinDots comps) = comps := by
  induction comps with
  | nil => exact absurd rfl hne
  | cons a rest ih =>
    have ha : '.' ∉ a := no_dot_of_isDigits (h a (by simp))
    cases rest with
    | nil => simp [joinDots, splitOnDot_no_dot ha]
    | cons b r =>
      rw [joinDots_cons a (b :: r) (by simp), splitOnDot_append ha,
        ih (fun x hx => h x (by simp [hx])) (by simp)]

lemma strip_nonnumeric_joinDots {comps : List Str}
    (h : ∀ c ∈ comps, isDigits c = true) (hne : comps ≠ []) :
    strip_nonnumeric (joinDots comps) true true = joinDots comps :=
  strip_nonnumeric_id (joinDots_head_digit h hne) (joinDots_reverse_head_digit h hne)

/-! ## `mkEntry` on clean non-appendix section tokens -/

lemma leadsWith_appendix_false {s : Str}
    (h : ∃ c t, s = c :: t ∧ c.isDigit = true) :
    leadsWith ('a' :: 'p' :: 'p' :: 'e' :: 'n' :: 'd' :: 'i' :: 'x' :: [' '])
      (lowerStr s) = false := by
  obtain ⟨c, t, rfl, hc⟩ := h
  simp [lowerStr, leadsWith, a_beq_toLower_digit hc]

lemma mapM_intComp {comps : List Str} (h : ∀ c ∈ comps, isDigits c = true) :
    comps.mapM intComp =
      Except.ok (comps.map fun c => ((digitsVal c : Nat) : Int)) := by
  induction comps with
  | nil => rfl
  | cons a rest ih =>
    rw [List.mapM_cons, intComp_digits (h a (by simp)),
      ih (fun x hx => h x (by simp [hx]))]
    rfl

lemma getD_append_replicate (l : List Int) (k i : Nat) :
    (l ++ List.replicate k (0 : Int)).getD i 0 = l.getD i 0 := by
  induction l generalizing i with
  | nil =>
    simp only [List.nil_append]
    cases i with
    | zero =>
      cases k with
      | zero => rfl
      | succ k => rfl
    | succ i =>
      cases k with
      | zero => rfl
      | succ k =>
        simp only [List.replicate_succ, List.getD_cons_succ]
        have := getD_append_replicate_aux k i
        exact this
  | cons a rest ih =>
    cases i with
    | zero => rfl
    | succ i => simpa using ih i
where
  getD_append_replicate_aux (k i : Nat) :
      (List.replicate k (0 : Int)).getD i 0 = ([] : List Int).getD i 0 := by
    induction k generalizing i with
    | zero => rfl
    | succ k ihk =>
      cases i with
      | zero => rfl
      | succ i =>
        rw [List.replicate_succ, List.getD_cons_succ, ihk i]
        simp [List.getD]

/-- The non-appendix branch of `Entry.__init__` on a raw section string whose
cleaned form is a dotted join of integer components. -/
lemma mkEntry_clean (raw t p : Str) (pv : Int) (comps : List Str)
    (happ : leadsWith ('a' :: 'p' :: 'p' :: 'e' :: 'n' :: 'd' :: 'i' :: 'x' :: [' '])
      (lowerStr raw) = false)
    (hclean : strip_nonnumeric raw true true = joinDots comps)
    (hcomps : ∀ c ∈ comps, isDigits c = true) (hne : comps ≠ [])
    (hp : toIntStrict p = some pv) :
    mkEntry raw t p = Except.ok
      { title := t, page := pv, appendix := false,
        chapter := (comps.map fun c => ((digitsVal c : Nat) : Int)).getD 0 0,
        sectionNum := (comps.map fun c => ((digitsVal c : Nat) : Int)).getD 1 0,
        subsection := (comps.map fun c => ((digitsVal c : Nat) : Int)).getD 2 0 } := by
  unfold mkEntry
  rw [show intComp p = Except.ok pv by simp [intComp, hp]]
  simp only [happ, Bool.false_eq_true, if_false, hclean,
    splitOnDot_joinDots hcomps hne, mapM_intComp hcomps]
  simp only [getD_append_replicate]
  rfl

lemma head_digit_append {a r : Str} (h : isDigits a = true) :
    ∃ c t, a ++ r = c :: t ∧ c.isDigit = true := by
  obtain ⟨c, t, rfl, hc⟩ := isDigits_cons h
  exact ⟨c, t ++ r, by simp, hc⟩

/-! ## Claim theorems -/

/-- C3: for every valid dotted numeric section string, `"a.b.c"` parses to
chapter `a`, section `b`, subsection `c`; `"a.b"` parses to chapter `a`,
section `b`, subsection `0`; `"a"` alone parses to chapter `a`, section `0`,
subsection `0`; with `appendix = false` in all three cases.  The page token is
any token Python `int` accepts, with value `pv`. -/
theorem c3_dotted_numeric (sa sb sc t p : Str) (pv : Int)
    (ha : isDigits sa = true) (hb : isDigits sb = true) (hc : isDigits sc = true)
    (hp : toIntStrict p = some pv) :
    mkEntry (sa ++ '.' :: sb ++ '.' :: sc) t p = Except.ok
      { title := t, page := pv, appendix := false,
        chapter := (digitsVal sa : Nat), sectionNum := (digitsVal sb : Nat),
        subsection := (digitsVal sc : Nat) } ∧
    mkEntry (sa ++ '.' :: sb) t p = Except.ok
      { title := t, page := pv, appendix := false,
        chapter := (digitsVal sa : Nat), sectionNum := (digitsVal sb : Nat),
        subsection := 0 } ∧
    mkEntry sa t p = Except.ok
      { title := t, page := pv, appendix := false,
        chapter := (digitsVal sa : Nat), sectionNum := 0, subsection := 0 } := by
  have hj3 : joinDots [sa, sb, sc] = sa ++ '.' :: sb ++ '.' :: sc := by
    simp [joinDots]
  have hj2 : joinDots [sa, sb] = sa ++ '.' :: sb := by
    simp [joinDots]
  have hj1 : joinDots [sa] = sa := by
    simp [joinDots]
  have hm3 : ∀ c ∈ [sa, sb, sc], isDigits c = true := by
    intro c hcm; fin_cases hcm <;> assumption
  have hm2 : ∀ c ∈ [sa, sb], isDigits c = true := by
    intro c hcm; fin_cases hcm <;> assumption
  have hm1 : ∀ c ∈ [sa], isDigits c = true := by
    intro c hcm; fin_cases hcm; assumption
  obtain ⟨c0, t0, hsa, hc0⟩ := isDigits_cons ha
  refine ⟨?_, ?_, ?_⟩
  · rw [mkEntry_clean (sa ++ '.' :: sb ++ '.' :: sc) t p pv [sa, sb, sc]
      (leadsWith_appendix_false
        ⟨c0, t0 ++ '.' :: sb ++ '.' :: sc, by rw [hsa]; simp, hc0⟩)
      (by rw [← hj3]; exact strip_nonnumeric_joinDots hm3 (by simp))
      hm3 (by simp) hp]
    rfl
  · rw [mkEntry_clean (sa ++ '.' :: sb) t p pv [sa, sb]
      (leadsWith_appendix_false ⟨c0, t0 ++ '.' :: sb, by rw [hsa]; simp, hc0⟩)
      (by rw [← hj2]; exact strip_nonnumeric_joinDots hm2 (by simp))
      hm2 (by simp) hp]
    rfl
  · rw [mkEntry_clean sa t p pv [sa]
      (leadsWith_appendix_false ⟨c0, t0, hsa, hc0⟩)
      (by rw [← hj1]; exact strip_nonnumeric_joinDots hm1 (by simp))
      hm1 (by simp) hp]
    rfl

theorem c3_witness :
    (isDigits ['5'] = true ∧ isDigits ['2'] = true ∧ isDigits ['3'] = true ∧
      toIntStrict ['7'] = some 7) ∧
    mkEntry ['5', '.', '2', '.', '3'] ['T'] ['7'] = Except.ok
      { title := ['T'], page := 7, appendix := false,
        chapter := 5, sectionNum := 2, subsection := 3 } :=
  ⟨by decide, by
    have h := (c3_dotted_numeric ['5'] ['2'] ['3'] ['T'] ['7'] 7
      (by decide) (by decide) (by decide) (by decide)).1
    exact h.trans (by decide)⟩

/-- C2, counterexample: the claim predicts that the single-component string
`"5"` is left-padded, yielding chapter 0, section 0, subsection 5.  The code
pads on the right: `"5"` yields chapter 5, section 0, subsection 0. -/
theorem c2_counterexample :
    mkEntry ['5'] [] ['7'] ≠ Except.ok
      { title := [], page := 7, appendix := false,
        chapter := 0, sectionNum := 0, subsection := 5 } ∧
    mkEntry ['5'] [] ['7'] = Except.ok
      { title := [], page := 7, appendix := false,
        chapter := 5, sectionNum := 0, subsection := 0 } := by
  constructor
  · decide
  · decide

/-- C2, amended: for every non-appendix raw section string whose cleaned form
splits on `'.'` into `k` integer components with `k < 3`, parsing pads the
component list with zeros on the right (the end) to exactly 3 elements, so a
single component becomes the chapter and the missing trailing levels default
to 0: `"a"` yields chapter `a`, section 0, subsection 0; `"a.b"` yields
chapter `a`, section `b`, subsection 0. -/
theorem c2_right_padded (raw t p : Str) (pv : Int) (c1 c2 : Str)
    (happ : leadsWith ('a' :: 'p' :: 'p' :: 'e' :: 'n' :: 'd' :: 'i' :: 'x' :: [' '])
      (lowerStr raw) = false)
    (h1 : isDigits c1 = true) (h2 : isDigits c2 = true)
    (hp : toIntStrict p = some pv) :
    (strip_nonnumeric raw true true = c1 →
      mkEntry raw t p = Except.ok
        { title := t, page := pv, appendix := false,
          chapter := (digitsVal c1 : Nat), sectionNum := 0, subsection := 0 }) ∧
    (strip_nonnumeric raw true true = c1 ++ '.' :: c2 →
      mkEntry raw t p = Except.ok
        { title := t, page := pv, appendix := false,
          chapter := (digitsVal c1 : Nat), sectionNum := (digitsVal c2 : Nat),
          subsection := 0 }) := by
  have hm1 : ∀ c ∈ [c1], isDigits c = true := by
    intro c hcm; fin_cases hcm; assumption
  have hm2 : ∀ c ∈ [c1, c2], isDigits c = true := by
    intro c hcm; fin_cases hcm <;> assumption
  constructor
  · intro hclean
    have hj1 : joinDots [c1] = c1 := by simp [joinDots]
    rw [mkEntry_clean raw t p pv [c1] happ (by rw [hclean, hj1]) hm1 (by simp) hp]
    rfl
  · intro hclean
    have hj2 : joinDots [c1, c2] = c1 ++ '.' :: c2 := by simp [joinDots]
    rw [mkEntry_clean raw t p pv [c1, c2] happ (by rw [hclean, hj2]) hm2 (by simp) hp]
    rfl

theorem c2_witness :
    (leadsWith ('a' :: 'p' :: 'p' :: 'e' :: 'n' :: 'd' :: 'i' :: 'x' :: [' '])
        (lowerStr ['8']) = false ∧
      isDigits ['8'] = true ∧ isDigits ['4'] = true ∧
      toIntStrict ['9'] = some 9 ∧ strip_nonnumeric ['8'] true true = ['8']) ∧
    mkEntry ['8'] [] ['9'] = Except.ok
      { title := [], page := 9, appendix := false,
        chapter := 8, sectionNum := 0, subsection := 0 } :=
  ⟨by decide, by
    have h := (c2_right_padded ['8'] [] ['9'] 9 ['8'] ['4']
      (by decide) (by decide) (by decide) (by decide)).1 (by decide)
    exact h.trans (by decide)⟩

/-- C1: the claim says that when the detector finds no TOC page, parsing the
empty TOC text terminates normally with an empty entry list.  In the code,
`parse_toc` ends by calling `offset_first_page`, which evaluates
`contents[0].title` on the empty entry list as soon as the document has at
least one page, raising `IndexError`.  Witnessed here on a one-page document
whose single line matches nothing: the detector output is empty, and parsing
it raises instead of returning an empty result. -/
theorem c1_empty_toc_raises :
    identify_toc [[['x']]] = [] ∧
    parse_toc [[['x']]] (identify_toc [[['x']]]) =
      Except.error "IndexError: list index out of range" := by
  constructor
  · decide
  · decide

lemma toc_action_false_append {p : List Str}
    (h : toc_action false p = TocAction.append) :
    4 * (p.filter lineMatches).length > 3 * p.length ∧ 10 ≤ p.length := by
  unfold toc_action at h
  by_cases h1 : 4 * (p.filter lineMatches).length > 3 * p.length
  · refine ⟨h1, ?_⟩
    by_cases h2 : p.length < 10
    · simp [h1, h2] at h
    · omega
  · simp [h1] at h

lemma identify_go_extends (rest : List (List Str)) (acc : List Str) :
    ∃ t, identify_go rest acc true = acc ++ t := by
  induction rest generalizing acc with
  | nil => exact ⟨[], by simp [identify_go]⟩
  | cons p r ih =>
    show ∃ t, identify_go (p :: r) acc true = acc ++ t
    unfold identify_go
    cases toc_action true p with
    | append =>
      obtain ⟨t, ht⟩ := ih (acc ++ p)
      exact ⟨p ++ t, by rw [ht, List.append_assoc]⟩
    | skip => exact ih acc
    | stop => exact ⟨[], by simp⟩

/-- C4: a page's lines are appended by the detector iff strictly more than
3/4 of its lines match the line-shape pattern (a non-digit followed by a
digit somewhere in the line), subject to the first-match small-page
exception; `4 * m > 3 * n` is the exact form of Python's
`len(cond_lines) > 0.75 * len(all_lines)`.  A page with 4 of 5 matching
lines is counted once a TOC has been found; a page with exactly 3 of 4
matching lines is never counted. -/
theorem c4_threshold_strict :
    (∀ (found : Bool) (p : List Str),
      toc_action found p = TocAction.append ↔
        (4 * (p.filter lineMatches).length > 3 * p.length ∧
          ¬(found = false ∧ p.length < 10))) ∧
    (∀ (p : List Str) (rest : List (List Str)) (acc : List Str) (found : Bool),
      identify_go (p :: rest) acc found =
        match toc_action found p with
        | TocAction.append => identify_go rest (acc ++ p) true
        | TocAction.skip => identify_go rest acc found
        | TocAction.stop => acc) ∧
    toc_action true [['a', '1'], ['a', '1'], ['a', '1'], ['a', '1'], ['a', 'a']] =
      TocAction.append ∧
    toc_action false [['a', '1'], ['a', '1'], ['a', '1'], ['a', 'a']] ≠
      TocAction.append ∧
    toc_action true [['a', '1'], ['a', '1'], ['a', '1'], ['a', 'a']] ≠
      TocAction.append := by
  refine ⟨?_, fun p rest acc found => rfl, by decide, by decide, by decide⟩
  intro found p
  unfold toc_action
  by_cases h1 : 4 * (p.filter lineMatches).length > 3 * p.length
  · simp only [h1, if_true, true_and]
    by_cases h2 : p.length < 10
    · cases found with
      | false => simp [h2]
      | true => simp [h2]
    · cases found with
      | false => simp [h2]
      | true => simp [h2]
  · simp only [h1, if_false, false_and]
    cases found with
    | false => simp [TocAction.skip, h1]
    | true => simp [TocAction.stop, h1]

/-- C9: the detector never takes a page with fewer than 10 lines as the
first matched page: whenever the detector output is non-empty, it starts
with the full line list of some input page that has at least 10 lines and
passes the strict 3/4 threshold. -/
theorem c9_first_match_ten_lines (pages : List (List Str)) :
    identify_toc pages = [] ∨
    ∃ p t, identify_toc pages = p ++ t ∧ 10 ≤ p.length ∧ p ∈ pages ∧
      4 * (p.filter lineMatches).length > 3 * p.length := by
  unfold identify_toc
  induction pages with
  | nil => exact Or.inl rfl
  | cons p rest ih =>
    show identify_go (p :: rest) [] false = [] ∨ _
    unfold identify_go
    cases hact : toc_action false p with
    | append =>
      obtain ⟨hthr, hlen⟩ := toc_action_false_append hact
      obtain ⟨t, ht⟩ := identify_go_extends rest ([] ++ p)
      refine Or.inr ⟨p, t, ?_, hlen, by simp, hthr⟩
      rw [ht]; simp
    | skip =>
      rcases ih with h | ⟨q, t, hq, hlen, hmem, hthr⟩
      · exact Or.inl h
      · exact Or.inr ⟨q, t, hq, hlen, by simp [hmem], hthr⟩
    | stop => exact Or.inl rfl

/-- C5: in the stitcher transition with a non-empty buffer and a line whose
section and page tokens are both numeric, the buffer triple is reassembled
into one blob, trailing non-numeric characters are stripped, the blob is
re-split into a triple that is parsed and appended, then the current line is
independently parsed and appended as a second entry, and the buffer is
cleared. -/
theorem c5_repair_transition (cs : List Entry) (b : Str × Str × Str)
    (line s t p : Str) (hsplit : split_line line = (s, t, p))
    (hs : check_numeric s = true) (hp : check_numeric p = true) :
    stitch_step (cs, some b) line =
      (do
        let (rs, rt, rp) := split_line
          (strip_nonnumeric (b.1 ++ ' ' :: b.2.1 ++ ' ' :: b.2.2) false true)
        let e1 ← mkEntry rs rt rp
        let e2 ← mkEntry s t p
        Except.ok (cs ++ [e1, e2], none)) := by
  obtain ⟨bs, bt, bp⟩ := b
  unfold stitch_step
  rw [hsplit]
  simp only [hs, hp]
  rfl

theorem c5_witness :
    (split_line "5.3 Tensile Stress Strain Curves 88".data =
        ("5.3".data, "Tensile Stress Strain Curves".data, "88".data) ∧
      check_numeric "5.3".data = true ∧ check_numeric "88".data = true) ∧
    stitch_step (([] : List Entry),
        some ("5.2.2".data, "Displacement Measurement Devices 87vi".data,
          "Contents".data))
        "5.3 Tensile Stress Strain Curves 88".data =
      Except.ok
        ([{ title := "Displacement Measurement Devices".data, page := 87,
            appendix := false, chapter := 5, sectionNum := 2, subsection := 2 },
          { title := "Tensile Stress Strain Curves".data, page := 88,
            appendix := false, chapter := 5, sectionNum := 3, subsection := 0 }],
          none) :=
  ⟨⟨by decide, by decide, by decide⟩, by
    have h := c5_repair_transition []
      ("5.2.2".data, "Displacement Measurement Devices 87vi".data, "Contents".data)
      "5.3 Tensile Stress Strain Curves 88".data
      "5.3".data "Tensile Stress Strain Curves".data "88".data
      (by decide) (by decide) (by decide)
    exact h.trans (by decide)⟩

/-- C10 (implicit): a line that opens a multi-line entry as the last TOC line
leaves the stitcher's buffer non-empty; that buffered partial entry is
silently dropped at end of input: the stitch of the extended line list
succeeds with exactly the same entry list, the dangling line sits only in the
final buffer, and `parse_toc` returns the same result as without that line. -/
theorem c10_dangling_buffer_dropped (toc_text : List Str) (l : Str)
    (cs : List Entry) (hprev : stitch toc_text = Except.ok (cs, none))
    (hsec : check_numeric (split_line l).1 = true)
    (hpage : check_numeric (split_line l).2.2 = false) :
    stitch (toc_text ++ [l]) = Except.ok (cs, some (split_line l)) ∧
    ∀ pages, parse_toc pages (toc_text ++ [l]) = parse_toc pages toc_text := by
  have hstep : stitch_step (cs, none) l = Except.ok (cs, some (split_line l)) := by
    rcases hsl : split_line l with ⟨s, t, p⟩
    rw [hsl] at hsec hpage
    simp only at hsec hpage
    unfold stitch_step
    rw [hsl]
    simp [hsec, hpage]
  have hext : stitch (toc_text ++ [l]) = Except.ok (cs, some (split_line l)) := by
    unfold stitch
    rw [List.foldlM_append]
    show (stitch toc_text >>= fun st => [l].foldlM stitch_step st) = _
    rw [hprev]
    show [l].foldlM stitch_step (cs, none) = _
    show (stitch_step (cs, none) l >>= fun st => pure st) = _
    rw [hstep]
    rfl
  refine ⟨hext, fun pages => ?_⟩
  unfold parse_toc
  rw [hext, hprev]
  rfl

theorem c10_witness :
    (stitch ["1 Introduction 1".data] =
        Except.ok ([{ title := "Introduction".data, page := 1, appendix := false,
                      chapter := 1, sectionNum := 0, subsection := 0 }], none) ∧
      check_numeric (split_line "1.1 Back ground".data).1 = true ∧
      check_numeric (split_line "1.1 Back ground".data).2.2 = false) ∧
    stitch ["1 Introduction 1".data, "1.1 Back ground".data] =
      Except.ok ([{ title := "Introduction".data, page := 1, appendix := false,
                    chapter := 1, sectionNum := 0, subsection := 0 }],
        some ("1.1".data, "Back".data, "ground".data)) :=
  ⟨⟨by decide, by decide, by decide⟩, by
    have h := (c10_dangling_buffer_dropped ["1 Introduction 1".data]
      "1.1 Back ground".data
      [{ title := "Introduction".data, page := 1, appendix := false,
         chapter := 1, sectionNum := 0, subsection := 0 }]
      (by decide) (by decide) (by decide)).1
    exact h.trans (by decide)⟩

/-! ## Offset calibration -/

lemma offset_go_none (pages : List (List Str)) (i : Nat) (e0 : Entry)
    (cs : List Entry)
    (h : ∀ p ∈ pages, hasSub e0.title (joinSpace (p.take 3)) = false) :
    offset_go pages i (e0 :: cs) = Except.ok none := by
  induction pages generalizing i with
  | nil => rfl
  | cons p rest ih =>
    unfold offset_go
    simp only [h p (by simp), Bool.false_eq_true, if_false]
    exact ih (i + 1) fun q hq => h q (by simp [hq])

lemma offset_go_found (pre : List (List Str)) (p : List Str)
    (post : List (List Str)) (i : Nat) (e0 : Entry) (cs : List Entry)
    (hpre : ∀ q ∈ pre, hasSub e0.title (joinSpace (q.take 3)) = false)
    (hp : hasSub e0.title (joinSpace (p.take 3)) = true) :
    offset_go (pre ++ p :: post) i (e0 :: cs) =
      Except.ok (some ((e0 :: cs).map fun e =>
        { e with page := e.page + ((i + pre.length : Nat) : Int) - 1 })) := by
  induction pre generalizing i with
  | nil =>
    unfold offset_go
    simp only [List.nil_append, hp, if_true]
    norm_num
  | cons q rest ih =>
    show offset_go (q :: (rest ++ p :: post)) i (e0 :: cs) = _
    unfold offset_go
    simp only [hpre q (by simp), Bool.false_eq_true, if_false]
    rw [ih (i + 1) fun r hr => hpre r (by simp [hr])]
    have hn : i + 1 + rest.length = i + (rest.length + 1) := by omega
    simp only [List.length_cons, hn]

/-- C7: for a non-empty entry list, if the first three extracted lines of
some page contain the first entry's title, the calibrator adds
`delta = pageIndex - 1` to every entry's page for the first such page and
returns the list; if no page matches, it returns without touching any entry
and without raising (`None` in Python, `Except.ok none` here). -/
theorem c7_offset_calibration (pages : List (List Str)) (e0 : Entry)
    (cs : List Entry) :
    ((∀ p ∈ pages, hasSub e0.title (joinSpace (p.take 3)) = false) →
      offset_first_page pages (e0 :: cs) = Except.ok none) ∧
    (∀ pre p post, pages = pre ++ p :: post →
      (∀ q ∈ pre, hasSub e0.title (joinSpace (q.take 3)) = false) →
      hasSub e0.title (joinSpace (p.take 3)) = true →
      offset_first_page pages (e0 :: cs) =
        Except.ok (some ((e0 :: cs).map fun e =>
          { e with page := e.page + (pre.length : Int) - 1 }))) := by
  constructor
  · intro h
    exact offset_go_none pages 0 e0 cs h
  · intro pre p post hpages hpre hp
    rw [hpages]
    unfold offset_first_page
    rw [offset_go_found pre p post 0 e0 cs hpre hp]
    norm_num

theorem c7_witness :
    ((∀ p ∈ [["nothing here".data], ["also nothing".data]],
        hasSub ("Intro".data) (joinSpace (p.take 3)) = false) ∧
      hasSub ("Intro".data) (joinSpace (["x".data, "Intro".data].take 3)) = true) ∧
    offset_first_page [["nothing here".data], ["also nothing".data]]
        [{ title := "Intro".data, page := 3, appendix := false,
           chapter := 1, sectionNum := 0, subsection := 0 }] = Except.ok none ∧
    offset_first_page [["nothing here".data], ["x".data, "Intro".data]]
        [{ title := "Intro".data, page := 3, appendix := false,
           chapter := 1, sectionNum := 0, subsection := 0 }] =
      Except.ok (some [{ title := "Intro".data, page := 3, appendix := false,
                         chapter := 1, sectionNum := 0, subsection := 0 }]) := by
  refine ⟨⟨by decide, by decide⟩, ?_, ?_⟩
  · exact (c7_offset_calibration [["nothing here".data], ["also nothing".data]]
      { title := "Intro".data, page := 3, appendix := false,
        chapter := 1, sectionNum := 0, subsection := 0 } []).1 (by decide)
  · have h := (c7_offset_calibration [["nothing here".data], ["x".data, "Intro".data]]
      { title := "Intro".data, page := 3, appendix := false,
        chapter := 1, sectionNum := 0, subsection := 0 } []).2
      [["nothing here".data]] ["x".data, "Intro".data] [] rfl (by decide) (by decide)
    exact h.trans (by decide)

/-! ## Render round-trip -/

lemma no_space_natStr (n : Nat) : ' ' ∉ natStr n :=
  no_space_of_isDigits (natStr_isDigits n)

lemma no_dot_natStr (n : Nat) : '.' ∉ natStr n :=
  no_dot_of_isDigits (natStr_isDigits n)

lemma intStr_nonneg {i : Int} (h : 0 ≤ i) : intStr i = natStr i.toNat := by
  unfold intStr
  rw [if_neg (by omega)]

lemma lowerStr_ne_appendix {s : Str} (h : ∃ c t, s = c :: t ∧ c.isDigit = true) :
    ¬ lowerStr s = ('a' :: 'p' :: 'p' :: 'e' :: 'n' :: 'd' :: 'i' :: ['x']) := by
  obtain ⟨c, t, rfl, hc⟩ := h
  simp only [lowerStr, List.map_cons, List.cons.injEq, not_and]
  intro h1
  have h2 := a_beq_toLower_digit hc
  rw [h1] at h2
  simp at h2

/-- `split_line` on a rendered label `tok ++ " " ++ A ++ " " ++ B` where the
section token `tok` starts with a digit and neither `tok` nor `B` contains a
space: the pieces come back as `(tok, A, B)`. -/
lemma split_line_render {tok A B : Str} (htok : ' ' ∉ tok)
    (hhead : ∃ c t, tok = c :: t ∧ c.isDigit = true) (hB : ' ' ∉ B) :
    split_line (tok ++ ' ' :: (A ++ ' ' :: B)) = (tok, A, B) := by
  unfold split_line
  rw [splitFirstSpace_append htok]
  simp only [lowerStr_ne_appendix hhead, if_false]
  rw [splitLastSpace_append hB]

/-- C8, counterexample: rendering an entry and re-extracting via
`split_line` followed by `Entry` parsing does not reproduce the numeric
fields.  For the section-level entry 1.1 the rendered page token is `"5)"`,
so `int` raises; for the chapter-level entry the section token is `"Ch."`,
which is unparseable even after stripping the page token. -/
theorem c8_counterexample :
    (mkEntry
        (split_line (entryStr { title := "T".data, page := 5, appendix := false,
                                chapter := 1, sectionNum := 1, subsection := 0 })).1
        (split_line (entryStr { title := "T".data, page := 5, appendix := false,
                                chapter := 1, sectionNum := 1, subsection := 0 })).2.1
        (split_line (entryStr { title := "T".data, page := 5, appendix := false,
                                chapter := 1, sectionNum := 1, subsection := 0 })).2.2 =
      Except.error "ValueError: invalid literal for int") ∧
    (mkEntry
        (split_line (entryStr { title := "T".data, page := 5, appendix := false,
                                chapter := 1, sectionNum := 0, subsection := 0 })).1
        (split_line (entryStr { title := "T".data, page := 5, appendix := false,
                                chapter := 1, sectionNum := 0, subsection := 0 })).2.1
        (strip_nonnumeric
          (split_line (entryStr { title := "T".data, page := 5, appendix := false,
                                  chapter := 1, sectionNum := 0, subsection := 0 })).2.2
          false true) =
      Except.error "ValueError: invalid literal for int") := by
  constructor
  · decide
  · decide

/-- C8, amended: for every non-appendix entry with non-negative numeric
fields at section or subsection level (chapter-level labels render as
`"Ch. c"`, whose section token is unparseable), rendering, re-splitting with
`split_line`, stripping the trailing non-numeric `')'` from the page token
(as `clean_buffer` does) and re-parsing reproduces chapter, section,
subsection and page. -/
theorem c8_render_roundtrip (e : Entry) (happ : e.appendix = false)
    (hc : 0 ≤ e.chapter) (hs : 0 ≤ e.sectionNum) (hss : 0 ≤ e.subsection)
    (hp : 0 ≤ e.page) (hlevel : e.sectionNum ≠ 0 ∨ e.subsection ≠ 0) :
    ∃ e', mkEntry (split_line (entryStr e)).1 (split_line (entryStr e)).2.1
        (strip_nonnumeric (split_line (entryStr e)).2.2 false true) =
          Except.ok e' ∧
      e'.chapter = e.chapter ∧ e'.sectionNum = e.sectionNum ∧
      e'.subsection = e.subsection ∧ e'.page = e.page := by
  have hBsp : ' ' ∉ intStr e.page ++ [')'] := by
    rw [intStr_nonneg hp]
    intro hm
    rcases List.mem_append.mp hm with hm | hm
    · exact no_space_natStr _ hm
    · simp at hm
  have hBstrip : strip_nonnumeric (intStr e.page ++ [')']) false true =
      natStr e.page.toNat := by
    rw [intStr_nonneg hp]
    refine strip_nonnumeric_trail (natStr_isDigits _) ?_
    intro c hcm
    simp only [List.mem_singleton] at hcm
    subst hcm
    decide
  have hpage : toIntStrict (natStr e.page.toNat) = some e.page := by
    rw [toIntStrict_natStr, Int.toNat_of_nonneg hp]
  by_cases hssz : e.subsection = 0
  · -- section level: the label is "c.s - title (page p)"
    have hsnz : e.sectionNum ≠ 0 := by
      rcases hlevel with h | h
      · exact h
      · exact absurd hssz h
    have hrender : entryStr e =
        (natStr e.chapter.toNat ++ '.' :: natStr e.sectionNum.toNat) ++
          ' ' :: (('-' :: ' ' ::
            (e.title ++ (' ' :: '(' :: 'p' :: 'a' :: 'g' :: 'e' :: []))) ++
            ' ' :: (intStr e.page ++ [')'])) := by
      unfold entryStr
      rw [if_neg (by simp [happ]), if_neg (by simp [hssz]), if_pos (by simp [hsnz])]
      rw [intStr_nonneg hc, intStr_nonneg hs]
      simp
    have htoksp : ' ' ∉ natStr e.chapter.toNat ++ '.' :: natStr e.sectionNum.toNat := by
      intro hm
      rcases List.mem_append.mp hm with hm | hm
      · exact no_space_natStr _ hm
      · rcases List.mem_cons.mp hm with hm | hm
        · exact absurd hm.symm (by decide)
        · exact no_space_natStr _ hm
    have hhead : ∃ c t,
        natStr e.chapter.toNat ++ '.' :: natStr e.sectionNum.toNat = c :: t ∧
          c.isDigit = true := by
      obtain ⟨c0, t0, h0, hc0⟩ := isDigits_cons (natStr_isDigits e.chapter.toNat)
      exact ⟨c0, t0 ++ '.' :: natStr e.sectionNum.toNat, by rw [h0]; simp, hc0⟩
    have hcomps : ∀ c ∈ [natStr e.chapter.toNat, natStr e.sectionNum.toNat],
        isDigits c = true := by
      intro c hcm; fin_cases hcm <;> exact natStr_isDigits _
    have hjd : joinDots [natStr e.chapter.toNat, natStr e.sectionNum.toNat] =
        natStr e.chapter.toNat ++ '.' :: natStr e.sectionNum.toNat := by
      simp [joinDots]
    have hclean : strip_nonnumeric
        (natStr e.chapter.toNat ++ '.' :: natStr e.sectionNum.toNat) true true =
        joinDots [natStr e.chapter.toNat, natStr e.sectionNum.toNat] := by
      rw [hjd, ← hjd]
      exact strip_nonnumeric_joinDots hcomps (by simp)
    have hmk := mkEntry_clean
      (natStr e.chapter.toNat ++ '.' :: natStr e.sectionNum.toNat)
      (('-' :: ' ' :: (e.title ++ (' ' :: '(' :: 'p' :: 'a' :: 'g' :: 'e' :: []))))
      (natStr e.page.toNat) e.page
      [natStr e.chapter.toNat, natStr e.sectionNum.toNat]
      (leadsWith_appendix_false hhead) hclean hcomps (by simp) hpage
    rw [hrender, split_line_render htoksp hhead hBsp]
    simp only [hBstrip]
    refine ⟨_, hmk, ?_, ?_, ?_, ?_⟩ <;>
      simp [digitsVal_natStr, Int.toNat_of_nonneg hc, Int.toNat_of_nonneg hs, hssz]
  · -- subsection level: the label is "c.s.ss - title (page p)"
    have hrender : entryStr e =
        (natStr e.chapter.toNat ++ '.' ::
          (natStr e.sectionNum.toNat ++ '.' :: natStr e.subsection.toNat)) ++
          ' ' :: (('-' :: ' ' ::
            (e.title ++ (' ' :: '(' :: 'p' :: 'a' :: 'g' :: 'e' :: []))) ++
            ' ' :: (intStr e.page ++ [')'])) := by
      unfold entryStr
      rw [if_neg (by simp [happ]), if_pos (by simp [hssz])]
      rw [intStr_nonneg hc, intStr_nonneg hs, intStr_nonneg hss]
      simp
    have htoksp : ' ' ∉ natStr e.chapter.toNat ++ '.' ::
        (natStr e.sectionNum.toNat ++ '.' :: natStr e.subsection.toNat) := by
      intro hm
      rcases List.mem_append.mp hm with hm | hm
      · exact no_space_natStr _ hm
      · rcases List.mem_cons.mp hm with hm | hm
        · exact absurd hm.symm (by decide)
        · rcases List.mem_append.mp hm with hm | hm
          · exact no_space_natStr _ hm
          · rcases List.mem_cons.mp hm with hm | hm
            · exact absurd hm.symm (by decide)
            · exact no_space_natStr _ hm
    have hhead : ∃ c t,
        natStr e.chapter.toNat ++ '.' ::
          (natStr e.sectionNum.toNat ++ '.' :: natStr e.subsection.toNat) = c :: t ∧
          c.isDigit = true := by
      obtain ⟨c0, t0, h0, hc0⟩ := isDigits_cons (natStr_isDigits e.chapter.toNat)
      exact ⟨c0, t0 ++ '.' ::
        (natStr e.sectionNum.toNat ++ '.' :: natStr e.subsection.toNat),
        by rw [h0]; simp, hc0⟩
    have hcomps : ∀ c ∈ [natStr e.chapter.toNat, natStr e.sectionNum.toNat,
        natStr e.subsection.toNat], isDigits c = true := by
      intro c hcm; fin_cases hcm <;> exact natStr_isDigits _
    have hjd : joinDots [natStr e.chapter.toNat, natStr e.sectionNum.toNat,
        natStr e.subsection.toNat] =
        natStr e.chapter.toNat ++ '.' ::
          (natStr e.sectionNum.toNat ++ '.' :: natStr e.subsection.toNat) := by
      simp [joinDots]
    have hclean : strip_nonnumeric
        (natStr e.chapter.toNat ++ '.' ::
          (natStr e.sectionNum.toNat ++ '.' :: natStr e.subsection.toNat)) true true =
        joinDots [natStr e.chapter.toNat, natStr e.sectionNum.toNat,
          natStr e.subsection.toNat] := by
      rw [hjd, ← hjd]
      exact strip_nonnumeric_joinDots hcomps (by simp)
    have hmk := mkEntry_clean
      (natStr e.chapter.toNat ++ '.' ::
        (natStr e.sectionNum.toNat ++ '.' :: natStr e.subsection.toNat))
      (('-' :: ' ' :: (e.title ++ (' ' :: '(' :: 'p' :: 'a' :: 'g' :: 'e' :: []))))
      (natStr e.page.toNat) e.page
      [natStr e.chapter.toNat, natStr e.sectionNum.toNat, natStr e.subsection.toNat]
      (leadsWith_appendix_false hhead) hclean hcomps (by simp) hpage
    rw [hrender, split_line_render htoksp hhead hBsp]
    simp only [hBstrip]
    refine ⟨_, hmk, ?_, ?_, ?_, ?_⟩ <;>
      simp [digitsVal_natStr, Int.toNat_of_nonneg hc, Int.toNat_of_nonneg hs,
        Int.toNat_of_nonneg hss]

theorem c8_witness :
    ((({ title := "T".data, page := 5, appendix := false, chapter := 1,
         sectionNum := 1, subsection := 0 } : Entry).appendix = false ∧
      (1 : Int) ≠ 0) ∧
      ((0 : Int) ≤ 1 ∧ (0 : Int) ≤ 1 ∧ (0 : Int) ≤ 0 ∧ (0 : Int) ≤ 5)) ∧
    ∃ e', mkEntry
        (split_line (entryStr { title := "T".data, page := 5, appendix := false,
                                chapter := 1, sectionNum := 1, subsection := 0 })).1
        (split_line (entryStr { title := "T".data, page := 5, appendix := false,
                                chapter := 1, sectionNum := 1, subsection := 0 })).2.1
        (strip_nonnumeric
          (split_line (entryStr { title := "T".data, page := 5, appendix := false,
                                  chapter := 1, sectionNum := 1, subsection := 0 })).2.2
          false true) = Except.ok e' ∧
      e'.chapter = 1 ∧ e'.sectionNum = 1 ∧ e'.subsection = 0 ∧ e'.page = 5 :=
  ⟨⟨⟨rfl, by decide⟩, by decide, by decide, by decide, by decide⟩,
    c8_render_roundtrip
      { title := "T".data, page := 5, appendix := false,
        chapter := 1, sectionNum := 1, subsection := 0 }
      rfl (by decide) (by decide) (by decide) (by decide) (Or.inl (by decide))⟩

/-! ## Hierarchy builder -/

lemma countP_eq_one_of_pairwise {α : Type _} {l : List α} {p : α → Bool}
    (hex : ∃ x ∈ l, p x = true)
    (huniq : l.Pairwise fun a b => ¬(p a = true ∧ p b = true)) :
    l.countP p = 1 := by
  induction l with
  | nil => simp at hex
  | cons a t ih =>
    obtain ⟨x, hx, hpx⟩ := hex
    rw [List.countP_cons]
    rcases List.mem_cons.mp hx with rfl | hx'
    · rw [hpx]
      have ht : t.countP p = 0 := by
        rw [List.countP_eq_zero]
        intro y hy hpy
        exact (List.pairwise_cons.mp huniq).1 y hy ⟨hpx, hpy⟩
      simp [ht]
    · have hpa : p a = false := by
        cases hpab : p a with
        | false => rfl
        | true => exact absurd ⟨hpab, hpx⟩ ((List.pairwise_cons.mp huniq).1 x hx')
      rw [hpa]
      have ht := ih ⟨x, hx', hpx⟩ (List.pairwise_cons.mp huniq).2
      simp [ht]

lemma countP_flatten_eq_sum {α : Type _} (L : List (List α)) (q : α → Bool) :
    L.flatten.countP q = (L.map fun l => l.countP q).sum := by
  induction L with
  | nil => rfl
  | cons l L ih => simp [List.countP_append, ih]

lemma sum_map_eq_countP {α : Type _} {l : List α} {f : α → Nat} {p : α → Bool}
    (h : ∀ x ∈ l, f x = if p x then 1 else 0) :
    (l.map f).sum = l.countP p := by
  induction l with
  | nil => rfl
  | cons a t ih =>
    rw [List.map_cons, List.sum_cons, List.countP_cons,
      ih fun x hx => h x (by simp [hx]), h a (by simp)]
    exact Nat.add_comm _ _

lemma section_group_congr {contents : List Entry} {a b : Entry}
    (h : a.chapter = b.chapter) :
    section_group contents a = section_group contents b := by
  unfold section_group
  rw [h]

lemma subsection_group_congr {contents : List Entry} {a b sec sec' : Entry}
    (h : a.chapter = b.chapter) (h2 : sec.sectionNum = sec'.sectionNum) :
    subsection_group contents a sec = subsection_group contents b sec' := by
  unfold subsection_group
  rw [h, h2]

lemma mem_section_group {contents : List Entry} {ch e : Entry} :
    e ∈ section_group contents ch ↔
      e ∈ contents ∧ e.chapter = ch.chapter ∧ e.sectionNum ≠ 0 ∧
        e.subsection = 0 ∧ e.appendix = false := by
  unfold section_group
  rw [List.mem_filter]
  constructor
  · rintro ⟨hmem, hpred⟩
    simp only [Bool.and_eq_true, beq_iff_eq, bne_iff_ne, ne_eq, Bool.not_eq_true',
      Bool.or_eq_false_iff, bne_eq_false_iff_eq] at hpred
    exact ⟨hmem, hpred.1.1, hpred.1.2, hpred.2.1, hpred.2.2⟩
  · rintro ⟨hmem, h1, h2, h3, h4⟩
    refine ⟨hmem, ?_⟩
    simp [h1, h2, h3, h4]

lemma mem_subsection_group {contents : List Entry} {ch sec e : Entry} :
    e ∈ subsection_group contents ch sec ↔
      e ∈ contents ∧ e.chapter = ch.chapter ∧ e.sectionNum = sec.sectionNum ∧
        e.subsection ≠ 0 ∧ e.appendix = false := by
  unfold subsection_group
  rw [List.mem_filter]
  constructor
  · rintro ⟨hmem, hpred⟩
    simp only [Bool.and_eq_true, beq_iff_eq, bne_iff_ne, ne_eq,
      Bool.not_eq_true'] at hpred
    exact ⟨hmem, hpred.1.1.1, hpred.1.1.2, hpred.1.2, hpred.2⟩
  · rintro ⟨hmem, h1, h2, h3, h4⟩
    refine ⟨hmem, ?_⟩
    simp [h1, h2, h3, h4]

lemma mem_chapter_level {contents : List Entry} {e : Entry} :
    e ∈ chapter_level contents ↔
      e ∈ contents ∧ e.sectionNum = 0 ∧ e.subsection = 0 ∧ e.appendix = false := by
  unfold chapter_level
  rw [List.mem_filter]
  constructor
  · rintro ⟨hmem, hpred⟩
    simp only [Bool.not_eq_true', Bool.or_eq_false_iff, bne_eq_false_iff_eq] at hpred
    exact ⟨hmem, hpred.1.1, hpred.1.2, hpred.2⟩
  · rintro ⟨hmem, h1, h2, h3⟩
    refine ⟨hmem, ?_⟩
    simp [h1, h2, h3]

lemma section_group_guard (contents : List Entry) (ch : Entry) :
    (section_group contents ch).filter (fun sec => sec.chapter == ch.chapter) =
      section_group contents ch := by
  rw [List.filter_eq_self]
  intro sec hsec
  simp [(mem_section_group.mp hsec).2.1]

/-- C6, counterexample: with two duplicate chapter-level entries for chapter 1
and a section entry 2.1 whose chapter has no chapter-level entry, the claim
fails in both directions: entry 2.1 appears in no group at all, and entry 1.1
appears in two distinct groups (the section group is built once per
chapter-level entry). -/
theorem c6_counterexample :
    (allGroups [⟨[], 1, false, 1, 0, 0⟩, ⟨[], 1, false, 1, 0, 0⟩,
        ⟨[], 1, false, 1, 1, 0⟩, ⟨[], 1, false, 2, 1, 0⟩]).countP
      (fun g => decide ((⟨[], 1, false, 2, 1, 0⟩ : Entry) ∈ g)) = 0 ∧
    (allGroups [⟨[], 1, false, 1, 0, 0⟩, ⟨[], 1, false, 1, 0, 0⟩,
        ⟨[], 1, false, 1, 1, 0⟩, ⟨[], 1, false, 2, 1, 0⟩]).countP
      (fun g => decide ((⟨[], 1, false, 1, 1, 0⟩ : Entry) ∈ g)) = 2 ∧
    (⟨[], 1, false, 2, 1, 0⟩ : Entry) ∈
      [(⟨[], 1, false, 1, 0, 0⟩ : Entry), ⟨[], 1, false, 1, 0, 0⟩,
        ⟨[], 1, false, 1, 1, 0⟩, ⟨[], 1, false, 2, 1, 0⟩] ∧
    (⟨[], 1, false, 2, 1, 0⟩ : Entry).appendix = false ∧
    (⟨[], 1, false, 1, 1, 0⟩ : Entry) ∈
      [(⟨[], 1, false, 1, 0, 0⟩ : Entry), ⟨[], 1, false, 1, 0, 0⟩,
        ⟨[], 1, false, 1, 1, 0⟩, ⟨[], 1, false, 2, 1, 0⟩] ∧
    (⟨[], 1, false, 1, 1, 0⟩ : Entry).appendix = false := by
  refine ⟨by decide, by decide, by decide, rfl, by decide, rfl⟩

/-- C6, amended: every non-appendix entry appears in exactly one of the
hierarchy builder's groups (the chapter-level group, a per-chapter section
group, or a per-(chapter, section) subsection group), provided chapter-level
entries have pairwise-distinct chapters, each chapter's section group has
pairwise-distinct section numbers, every section-level entry's chapter is the
chapter of some chapter-level entry, and every subsection-level entry has a
matching chapter-level entry and a matching section-level entry under it.
Without the distinctness hypotheses entries can be duplicated across groups,
and without the parent-existence hypotheses entries can be dropped. -/
theorem c6_exactly_one (contents : List Entry)
    (hch : (chapter_level contents).Pairwise fun a b => a.chapter ≠ b.chapter)
    (hsec : ∀ ch ∈ chapter_level contents,
      (section_group contents ch).Pairwise fun a b => a.sectionNum ≠ b.sectionNum)
    (hparent1 : ∀ x ∈ contents, x.appendix = false → x.sectionNum ≠ 0 →
      x.subsection = 0 → ∃ ch ∈ chapter_level contents, ch.chapter = x.chapter)
    (hparent2 : ∀ x ∈ contents, x.appendix = false → x.subsection ≠ 0 →
      ∃ ch ∈ chapter_level contents, ch.chapter = x.chapter ∧
        ∃ sec ∈ section_group contents ch, sec.sectionNum = x.sectionNum)
    (e : Entry) (he : e ∈ contents) (happ : e.appendix = false) :
    (allGroups contents).countP (fun g => decide (e ∈ g)) = 1 := by
  unfold allGroups
  rw [List.countP_append, List.countP_cons]
  by_cases hss0 : e.subsection = 0
  · have h3 : ((subsection_level contents).flatten.countP
        fun g => decide (e ∈ g)) = 0 := by
      rw [List.countP_eq_zero]
      intro g hg hq
      rw [decide_eq_true_eq] at hq
      unfold subsection_level at hg
      obtain ⟨inner, hinner, hginner⟩ := List.mem_flatten.mp hg
      obtain ⟨ch, _, rfl⟩ := List.mem_map.mp hinner
      obtain ⟨sec, _, rfl⟩ := List.mem_map.mp hginner
      exact (mem_subsection_group.mp hq).2.2.2.1 hss0
    by_cases hs0 : e.sectionNum = 0
    · -- chapter level: the entry sits in the chapter-level group only
      have h1 : decide (e ∈ chapter_level contents) = true := by
        rw [decide_eq_true_eq]
        exact mem_chapter_level.mpr ⟨he, hs0, hss0, happ⟩
      have h2 : ((section_level contents).countP fun g => decide (e ∈ g)) = 0 := by
        rw [List.countP_eq_zero]
        intro g hg hq
        rw [decide_eq_true_eq] at hq
        unfold section_level at hg
        obtain ⟨ch, _, rfl⟩ := List.mem_map.mp hg
        exact (mem_section_group.mp hq).2.2.1 hs0
      rw [h1, h2, h3]
      simp
    · -- section level: the entry sits in exactly one section group
      have h1 : decide (e ∈ chapter_level contents) = false := by
        rw [decide_eq_false_iff_not]
        intro hmem
        exact hs0 (mem_chapter_level.mp hmem).2.1
      have h2 : ((section_level contents).countP fun g => decide (e ∈ g)) = 1 := by
        unfold section_level
        rw [List.countP_map]
        apply countP_eq_one_of_pairwise
        · obtain ⟨ch0, hch0, hchap⟩ := hparent1 e he happ hs0 hss0
          refine ⟨ch0, hch0, ?_⟩
          simp only [Function.comp_apply, decide_eq_true_eq]
          exact mem_section_group.mpr ⟨he, hchap.symm, hs0, hss0, happ⟩
        · refine List.Pairwise.imp ?_ hch
          intro a b hne hab
          obtain ⟨ha, hb⟩ := hab
          simp only [Function.comp_apply, decide_eq_true_eq] at ha hb
          exact hne ((mem_section_group.mp ha).2.1.symm.trans
            (mem_section_group.mp hb).2.1)
      rw [h1, h2, h3]
      simp
  · -- subsection level: the entry sits in exactly one subsection group
    obtain ⟨ch0, hch0mem, hch0chap, sec0, hsec0mem, hsec0⟩ :=
      hparent2 e he happ hss0
    have h1 : decide (e ∈ chapter_level contents) = false := by
      rw [decide_eq_false_iff_not]
      intro hmem
      exact hss0 (mem_chapter_level.mp hmem).2.2.1
    have h2 : ((section_level contents).countP fun g => decide (e ∈ g)) = 0 := by
      rw [List.countP_eq_zero]
      intro g hg hq
      rw [decide_eq_true_eq] at hq
      unfold section_level at hg
      obtain ⟨ch, _, rfl⟩ := List.mem_map.mp hg
      exact hss0 (mem_section_group.mp hq).2.2.2.1
    have h3 : ((subsection_level contents).flatten.countP
        fun g => decide (e ∈ g)) = 1 := by
      unfold subsection_level
      have hguard : (chapter_level contents).map
          (fun ch => ((section_group contents ch).filter
            fun sec => sec.chapter == ch.chapter).map (subsection_group contents ch)) =
          (chapter_level contents).map
            (fun ch => (section_group contents ch).map (subsection_group contents ch)) :=
        List.map_congr_left fun ch _ => by rw [section_group_guard]
      rw [hguard, countP_flatten_eq_sum, List.map_map]
      have hpointwise : ∀ ch ∈ chapter_level contents,
          ((fun l => List.countP (fun g => decide (e ∈ g)) l) ∘
            fun ch => (section_group contents ch).map (subsection_group contents ch)) ch =
            if (ch.chapter == e.chapter) = true then 1 else 0 := by
        intro ch hchmem
        simp only [Function.comp_apply]
        rw [List.countP_map]
        by_cases hcc : ch.chapter = e.chapter
        · rw [if_pos (by simp [hcc])]
          apply countP_eq_one_of_pairwise
          · refine ⟨sec0, ?_, ?_⟩
            · rw [section_group_congr (hcc.trans hch0chap.symm)]
              exact hsec0mem
            · simp only [Function.comp_apply, decide_eq_true_eq]
              exact mem_subsection_group.mpr ⟨he, hcc.symm, hsec0.symm, hss0, happ⟩
          · refine List.Pairwise.imp ?_ (hsec ch hchmem)
            intro a b hne hab
            obtain ⟨ha, hb⟩ := hab
            simp only [Function.comp_apply, decide_eq_true_eq] at ha hb
            exact hne ((mem_subsection_group.mp ha).2.2.1.symm.trans
              (mem_subsection_group.mp hb).2.2.1)
        · rw [if_neg (by simp [hcc])]
          rw [List.countP_eq_zero]
          intro sec _ hq
          simp only [Function.comp_apply, decide_eq_true_eq] at hq
          exact hcc (mem_subsection_group.mp hq).2.1.symm
      rw [@sum_map_eq_countP Entry (chapter_level contents) _ _ hpointwise]
      apply countP_eq_one_of_pairwise
      · exact ⟨ch0, hch0mem, by simp [hch0chap]⟩
      · refine List.Pairwise.imp ?_ hch
        intro a b hne hab
        obtain ⟨ha, hb⟩ := hab
        rw [beq_iff_eq] at ha hb
        exact hne (ha.trans hb.symm)
    rw [h1, h2, h3]
    simp

theorem c6_witness :
    (((chapter_level [(⟨[], 1, false, 1, 0, 0⟩ : Entry), ⟨[], 3, false, 1, 1, 0⟩,
          ⟨[], 5, false, 1, 1, 1⟩]).Pairwise fun a b => a.chapter ≠ b.chapter) ∧
      (⟨[], 5, false, 1, 1, 1⟩ : Entry) ∈
        [(⟨[], 1, false, 1, 0, 0⟩ : Entry), ⟨[], 3, false, 1, 1, 0⟩,
          ⟨[], 5, false, 1, 1, 1⟩] ∧
      (⟨[], 5, false, 1, 1, 1⟩ : Entry).appendix = false) ∧
    (allGroups [(⟨[], 1, false, 1, 0, 0⟩ : Entry), ⟨[], 3, false, 1, 1, 0⟩,
        ⟨[], 5, false, 1, 1, 1⟩]).countP
      (fun g => decide ((⟨[], 5, false, 1, 1, 1⟩ : Entry) ∈ g)) = 1 :=
  ⟨⟨by decide, by decide, rfl⟩,
    c6_exactly_one
      [⟨[], 1, false, 1, 0, 0⟩, ⟨[], 3, false, 1, 1, 0⟩, ⟨[], 5, false, 1, 1, 1⟩]
      (by decide) (by decide)
      (by decide) (by decide)
      ⟨[], 5, false, 1, 1, 1⟩ (by decide) rfl⟩

end Toc
